import Mathlib

/-!
Verification of the winiutils concurrent-execution core against its
natural-language specification.

The repository snapshot ships the test suite for the concurrent core
(`tests/test_winiutils/test_src/test_iterating/...`) but not the
implementation modules themselves
(`winiutils/src/iterating/concurrent/concurrent.py`,
`winiutils/src/iterating/concurrent/multithreading.py`,
`winiutils/src/iterating/concurrent/multiprocessing.py`,
`winiutils/src/iterating/iterate.py`).  Every definition below that embeds
one of those functions is therefore modelled from the specification's words
(and the call shapes visible in the tests), as its doc comment records.

Concurrency is embedded by making completion order explicit: an execution
engine is parameterised by a list `completion` of task indices, the order in
which the pool happens to finish the tasks; a run of the real engine
corresponds to some `completion` that is a permutation of the task indices.
-/

/-- A tagged task unit (spec section 3, "Task Unit"): the work function, the
zero-based order index of the task in the caller's original argument list, and
the positional arguments the work function will be applied to (per-task
arguments followed by the broadcast arguments). -/
structure TaskUnit (α β : Type) where
  func : List α → β
  order : Nat
  args : List α

/-- Modelled from the spec: `generate_process_args` (the Tagger, spec section
4.1) from the absent module `winiutils/src/iterating/concurrent/concurrent.py`.
Given the work function, the ordered per-task argument lists, the shared
("static") broadcast arguments and the isolated ("deepcopy static") broadcast
arguments, it produces one task unit per input argument list, in input order,
tagged with the zero-based position, with shared broadcasts appended before
isolated broadcasts.  Values here are pure, so a deep copy of a broadcast is
the value itself; object identity and per-unit copies are modelled separately
by the heap embedding further below. -/
def generate_process_args (process_function : List α → β) (process_args : List (List α))
    (process_args_static : List α) (deepcopy_static_args : List α) :
    List (TaskUnit α β) :=
  process_args.enum.map
    (fun p => ⟨process_function, p.1, p.2 ++ process_args_static ++ deepcopy_static_args⟩)

/-- Modelled from the spec: `get_order_and_func_result` from the absent module
`winiutils/src/iterating/concurrent/concurrent.py`.  A worker unpacks a task
unit `(func, order, *args)` and returns the result pair `(order, func(*args))`
(spec section 4.3). -/
def get_order_and_func_result (u : TaskUnit α β) : Nat × β :=
  (u.order, u.func u.args)

/-- Comparison of result pairs by order index, the sort key used when restoring
input order (spec section 3, "Ordered Result Sequence"). -/
def orderLE (a b : Nat × β) : Prop := a.1 ≤ b.1

/-- Strict comparison of result pairs by order index. -/
def orderLT (a b : Nat × β) : Prop := a.1 < b.1

instance : DecidableRel (@orderLE β) := fun a b => Nat.decLe a.1 b.1

instance : DecidableRel (@orderLT β) := fun a b => Nat.decLt a.1 b.1

instance : IsTotal (Nat × β) orderLE := ⟨fun a b => Nat.le_total a.1 b.1⟩

instance : IsTrans (Nat × β) orderLE := ⟨fun _ _ _ h1 h2 => Nat.le_trans h1 h2⟩

instance : IsAntisymm (Nat × β) orderLT := ⟨fun _ _ h1 h2 => absurd h2 (Nat.lt_asymm h1)⟩

/-- Modelled from the spec: `get_multiprocess_results_with_tqdm` from the
absent module `winiutils/src/iterating/concurrent/concurrent.py`.  It takes the
pre-computed `(order_index, result)` pairs, the work function, the declared
task count and the mode flag — the latter three used purely for
progress-reporting cosmetics (spec section 4.6), hence ignored by the value
computation — sorts the pairs ascending by order index and returns only the
result values. -/
def get_multiprocess_results_with_tqdm (results : List (Nat × β)) (process_func : σ)
    (process_args_len : Nat) (threads : Bool) : List β :=
  (List.insertionSort orderLE results).map Prod.snd

/-- Modelled from the spec: the completion-order-parameterised execution step
shared by the thread engine (spec section 4.3) and the process engine (spec
section 4.4), both absent from the snapshot.  The tagged units are executed in
the order `completion` in which the pool happens to finish them, each producing
its `(order_index, result)` pair via `get_order_and_func_result`. -/
def run_engine (f : List α → β) (tasks : List (List α)) (shared iso : List α)
    (completion : List Nat) : List (Nat × β) :=
  (completion.filterMap (fun i => (generate_process_args f tasks shared iso)[i]?)).map
    get_order_and_func_result

/-- Modelled from the spec: `multithread_loop` (Thread Execution Engine, spec
section 4.3) from the absent module
`winiutils/src/iterating/concurrent/multithreading.py`: run the tagged units on
a thread pool, consume completions in arbitrary order, then restore input
order. -/
def multithread_loop (process_function : List α → β) (process_args : List (List α))
    (process_args_static deepcopy_static_args : List α) (completion : List Nat) : List β :=
  get_multiprocess_results_with_tqdm
    (run_engine process_function process_args process_args_static deepcopy_static_args completion)
    process_function process_args.length true

/-- Modelled from the spec: `multiprocess_loop` (Process Execution Engine, spec
section 4.4) from the absent module
`winiutils/src/iterating/concurrent/multiprocessing.py`: same consumption and
re-ordering contract as the thread engine, with workers in spawned processes;
the scheduling difference is abstracted by the `completion` permutation. -/
def multiprocess_loop (process_function : List α → β) (process_args : List (List α))
    (process_args_static deepcopy_static_args : List α) (completion : List Nat) : List β :=
  get_multiprocess_results_with_tqdm
    (run_engine process_function process_args process_args_static deepcopy_static_args completion)
    process_function process_args.length false

/-- Modelled from the spec: `concurrent_loop` (Unified Loop Facade, spec
section 4.6) from the absent module
`winiutils/src/iterating/concurrent/concurrent.py`: dispatch to the thread or
process engine according to the `threading` flag and return the ordered result
sequence. -/
def concurrent_loop (threading : Bool) (process_function : List α → β)
    (process_args : List (List α)) (process_args_static deepcopy_static_args : List α)
    (completion : List Nat) : List β :=
  if threading then
    multithread_loop process_function process_args process_args_static deepcopy_static_args
      completion
  else
    multiprocess_loop process_function process_args process_args_static deepcopy_static_args
      completion

/-- Consume result pairs in completion order, fail-fast: the first pair whose
computation raised aborts the collection with that error (spec section 4.3,
"Failure in any one task must propagate as a failure of the whole loop"). -/
def collect_fail_fast : List (Nat × Except ε γ) → Except ε (List (Nat × γ))
  | [] => Except.ok []
  | (_, Except.error e) :: _ => Except.error e
  | (i, Except.ok v) :: rest => (collect_fail_fast rest).map (fun r => (i, v) :: r)

/-- Modelled from the spec: the loop facade run with a work function that may
raise (modelled as `Except`), spec section 7 (b): a failing task aborts the
whole loop and its error propagates unchanged to the direct caller; no partial
result list is returned and nothing is retried. -/
def concurrent_loop_fallible (threading : Bool) (process_function : List α → Except ε β)
    (process_args : List (List α)) (process_args_static deepcopy_static_args : List α)
    (completion : List Nat) : Except ε (List β) :=
  match collect_fail_fast
      (run_engine process_function process_args process_args_static deepcopy_static_args
        completion) with
  | Except.error e => Except.error e
  | Except.ok pairs =>
    Except.ok (get_multiprocess_results_with_tqdm pairs process_function
      process_args.length threading)

/-- Modelled from the spec: the CPU-derived upper bound on the worker count
(spec section 4.2): in thread mode the bound oversubscribes the CPU count (the
factor 4 matches the bound asserted by `test_find_max_pools`), in process mode
it is the CPU count itself; an undetermined CPU count (`none`) counts as 1. -/
def cpu_derived_bound (threads : Bool) (cpu_count : Option Nat) : Nat :=
  if threads then 4 * max (cpu_count.getD 1) 1 else max (cpu_count.getD 1) 1

/-- Modelled from the spec: `find_max_pools` (Pool Sizing Advisor, spec section
4.2) from the absent module `winiutils/src/iterating/concurrent/concurrent.py`:
cap the CPU-derived bound at the task count when the task count is known, and
always return at least 1 ("Must always return at least 1, even when CPU count
cannot be determined").  The CPU count, read from the host in the source, is an
explicit `Option Nat` parameter here. -/
def find_max_pools (threads : Bool) (cpu_count : Option Nat)
    (process_args_len : Option Nat) : Nat :=
  max
    (match process_args_len with
      | some n => min (cpu_derived_bound threads cpu_count) n
      | none => cpu_derived_bound threads cpu_count) 1

/-- The timeout error raised by the timeout wrapper, carrying the
caller-supplied message. -/
structure PyTimeoutError (μ : Type) where
  message : μ

/-- Modelled from the spec: `cancel_on_timeout` (Timeout-Enforcing Call
Wrapper, spec section 4.5) from the absent module
`winiutils/src/iterating/concurrent/multiprocessing.py`.  The wrapped call runs
in a dedicated worker process; `runtime` models the wall-clock time the
underlying call needs.  If the worker finishes strictly before the duration
elapses its return value is returned unmodified; otherwise the worker is
killed and a timeout error carrying `message` is the outcome — at duration
zero the timeout always wins ("A duration of zero must deterministically time
out (no grace period)"). -/
def cancel_on_timeout (seconds : ℚ) (message : μ) (call : List α → β) (runtime : ℚ)
    (args : List α) : Except (PyTimeoutError μ) β :=
  if runtime < seconds then Except.ok (call args) else Except.error ⟨message⟩

/-- A heap of Python objects for the identity-aware model of isolated
broadcasts: cell `a` holds the current value of the object whose identity is
the address `a`.  Two equal values at different addresses are equal but not
the same object. -/
structure Heap (α : Type) where
  cells : List α

/-- Number of allocated objects. -/
def Heap.size (h : Heap α) : Nat := h.cells.length

/-- Value of the object at address `a`. -/
def Heap.getD [Inhabited α] (h : Heap α) (a : Nat) : α := h.cells.getD a default

/-- Allocate a new object with value `v`, returning the extended heap and the
fresh address. -/
def Heap.alloc (h : Heap α) (v : α) : Heap α × Nat := (⟨h.cells ++ [v]⟩, h.cells.length)

/-- Mutate the object at address `a` in place. -/
def Heap.set (h : Heap α) (a : Nat) (v : α) : Heap α := ⟨h.cells.set a v⟩

/-- Modelled from the spec: `copy.deepcopy` as used on the isolated broadcast
arguments — a structurally independent copy: a fresh object holding the same
value as the object at `a`. -/
def Heap.deepcopy [Inhabited α] (h : Heap α) (a : Nat) : Heap α × Nat := h.alloc (h.getD a)

/-- Modelled from the spec: the per-unit copying of the isolated
(`deepcopy_static_args`) broadcast arguments performed by the Tagger (spec
section 4.1, "Isolated broadcasts are appended as an independent deep copy per
unit"): deep-copy each listed address in order, returning the new heap and the
copies' addresses. -/
def copy_iso_args [Inhabited α] : Heap α → List Nat → Heap α × List Nat
  | h, [] => (h, [])
  | h, a :: rest =>
    let p := h.deepcopy a
    let q := copy_iso_args p.1 rest
    (q.1, p.2 :: q.2)

/-- Modelled from the spec: the identity-aware part of the Tagger for `n` task
units — each unit, in input order, receives its own fresh deep copies of the
isolated broadcast arguments at addresses `as`. -/
def tag_units_iso [Inhabited α] : Heap α → Nat → List Nat → Heap α × List (List Nat)
  | h, 0, _ => (h, [])
  | h, n+1, as =>
    let p := copy_iso_args h as
    let q := tag_units_iso p.1 n as
    (q.1, p.2 :: q.2)

/-- The heap after tagging `n` units with isolated broadcasts at `as`. -/
def tag_heap [Inhabited α] (h : Heap α) (n : Nat) (as : List Nat) : Heap α :=
  (tag_units_iso h n as).1

/-- The address of unit `i`'s copy of the `k`-th isolated broadcast argument. -/
def tag_addr [Inhabited α] (h : Heap α) (n : Nat) (as : List Nat) (i k : Nat) : Nat :=
  ((tag_units_iso h n as).2.getD i []).getD k 0

/-- A Python iterable as seen by `len`: either sized (`__len__` available, as
for lists and sets) or unsized (no `__len__`, as for generators). -/
inductive PyIterable (α : Type) where
  | sized (elems : List α)
  | unsized (elems : List α)

/-- The `TypeError` raised by Python's `len` on an unsized iterable. -/
inductive PyTypeError where
  | mk

/-- Modelled from the spec/tests: `get_len_with_default` from the absent
module `winiutils/src/iterating/iterate.py`: return `len(iterable)` when the
iterable is sized, otherwise the supplied default, and raise `TypeError` when
the iterable is unsized and no default was supplied. -/
def get_len_with_default (iterable : PyIterable α) (default : Option Nat) :
    Except PyTypeError Nat :=
  match iterable with
  | PyIterable.sized l => Except.ok l.length
  | PyIterable.unsized _ =>
    match default with
    | some d => Except.ok d
    | none => Except.error PyTypeError.mk

/-- Sorting by order index any permutation of a strictly key-sorted list of
result pairs recovers that list exactly. -/
theorem insertionSort_orderLE_eq {β : Type} (c s : List (Nat × β))
    (hp : c.Perm s) (hs : s.Pairwise orderLT) :
    List.insertionSort orderLE c = s := by
  have hps : (List.insertionSort orderLE c).Perm s :=
    (List.perm_insertionSort _ c).trans hp
  apply List.eq_of_perm_of_sorted (r := @orderLT β) hps
  · have h1 : (List.insertionSort orderLE c).Pairwise orderLE :=
      List.sorted_insertionSort _ c
  -- keys of the sorted list are pairwise distinct, because they are in `s`
    have hsnd : (s.map Prod.fst).Nodup :=
      (List.pairwise_map).2 (hs.imp (fun h => Nat.ne_of_lt h))
    have hnd : ((List.insertionSort orderLE c).map Prod.fst).Nodup :=
      ((hps.map Prod.fst).nodup_iff).2 hsnd
    have hne : (List.insertionSort orderLE c).Pairwise (fun a b : Nat × β => a.1 ≠ b.1) :=
      (List.pairwise_map).1 hnd
    exact (h1.and hne).imp (fun h => Nat.lt_of_le_of_ne h.1 h.2)
  · exact hs

/-- Reading every index of a list in order through `getElem?` returns the
list itself. -/
theorem filterMap_getElem?_range {γ : Type} (xs : List γ) :
    (List.range xs.length).filterMap (fun i => xs[i]?) = xs := by
  induction xs with
  | nil => rfl
  | cons x t ih =>
    rw [List.length_cons, List.range_succ_eq_map, List.filterMap_cons]
    simp only [List.getElem?_cons_zero, List.filterMap_map]
    have hfun : ((fun i => (x :: t)[i]?) ∘ Nat.succ) = fun i : Nat => t[i]? := by
      funext i
      simp
    rw [hfun, ih]

/-- The tagger produces exactly one unit per input argument list. -/
theorem generate_process_args_length (f : List α → β) (tasks : List (List α))
    (shared iso : List α) :
    (generate_process_args f tasks shared iso).length = tasks.length := by
  simp [generate_process_args]

/-- Pointwise description of the tagger's output. -/
theorem generate_process_args_getElem? (f : List α → β) (tasks : List (List α))
    (shared iso : List α) (i : Nat) :
    (generate_process_args f tasks shared iso)[i]? =
      (tasks[i]?).map (fun t => ⟨f, i, t ++ shared ++ iso⟩) := by
  simp only [generate_process_args, List.getElem?_map, List.getElem?_enum]
  cases tasks[i]? <;> rfl

/-- Executing the tagged units in any completion order that is a permutation
of the task indices yields a permutation of the canonical result pairs
`(i, f (tasks[i] ++ shared ++ iso))`. -/
theorem run_engine_perm (f : List α → β) (tasks : List (List α)) (shared iso : List α)
    (completion : List Nat) (hc : completion.Perm (List.range tasks.length)) :
    (run_engine f tasks shared iso completion).Perm
      (tasks.enum.map (fun p => (p.1, f (p.2 ++ shared ++ iso)))) := by
  unfold run_engine
  have hunits :
      (List.range tasks.length).filterMap
          (fun i => (generate_process_args f tasks shared iso)[i]?)
        = generate_process_args f tasks shared iso := by
    rw [← generate_process_args_length f tasks shared iso]
    exact filterMap_getElem?_range (generate_process_args f tasks shared iso)
  have h1 :
      (completion.filterMap (fun i => (generate_process_args f tasks shared iso)[i]?)).Perm
        (generate_process_args f tasks shared iso) := by
    have h0 := hc.filterMap (fun i => (generate_process_args f tasks shared iso)[i]?)
    rw [hunits] at h0
    exact h0
  have h2 := h1.map get_order_and_func_result
  have h3 :
      (generate_process_args f tasks shared iso).map get_order_and_func_result
        = tasks.enum.map (fun p => (p.1, f (p.2 ++ shared ++ iso))) := by
    simp only [generate_process_args, List.map_map]
    rfl
  rw [h3] at h2
  exact h2

/-- The canonical result pairs are strictly sorted by order index. -/
theorem pairs_pairwise_orderLT (f : List α → β) (tasks : List (List α)) (shared iso : List α) :
    (tasks.enum.map (fun p => (p.1, f (p.2 ++ shared ++ iso)))).Pairwise orderLT := by
  rw [List.pairwise_map]
  have h := List.pairwise_lt_range tasks.length
  rw [← List.enum_map_fst tasks, List.pairwise_map] at h
  exact h.imp (fun hab => hab)

/-- Projecting the canonical result pairs to their values gives the direct
evaluation of the work function on every task, in input order. -/
theorem pairs_map_snd (f : List α → β) (tasks : List (List α)) (shared iso : List α) :
    (tasks.enum.map (fun p => (p.1, f (p.2 ++ shared ++ iso)))).map Prod.snd
      = tasks.map (fun t => f (t ++ shared ++ iso)) := by
  conv_rhs => rw [← List.enum_map_snd tasks]
  simp only [List.map_map]
  rfl

/-- C1: for every work function and every list of per-task argument lists
(including the empty list), the parallel loop in both thread and process mode,
run under any completion order that is a permutation of the task indices,
returns a list whose length equals the number of input argument lists and
whose i-th element is the work function applied to the i-th argument list
followed by the broadcast arguments; in particular an empty task list yields
an empty output and a singleton task list the single value of direct
invocation. -/
theorem concurrent_loop_ordered (threading : Bool) (f : List α → β) (tasks : List (List α))
    (shared iso : List α) (completion : List Nat)
    (hc : completion.Perm (List.range tasks.length)) :
    concurrent_loop threading f tasks shared iso completion
      = tasks.map (fun t => f (t ++ shared ++ iso))
    ∧ (concurrent_loop threading f tasks shared iso completion).length = tasks.length := by
  have hmain : ∀ th : Bool,
      get_multiprocess_results_with_tqdm (run_engine f tasks shared iso completion) f
          tasks.length th
        = tasks.map (fun t => f (t ++ shared ++ iso)) := by
    intro th
    unfold get_multiprocess_results_with_tqdm
    rw [insertionSort_orderLE_eq _ _ (run_engine_perm f tasks shared iso completion hc)
      (pairs_pairwise_orderLT f tasks shared iso)]
    exact pairs_map_snd f tasks shared iso
  have hval : concurrent_loop threading f tasks shared iso completion
      = tasks.map (fun t => f (t ++ shared ++ iso)) := by
    cases threading <;>
      simp [concurrent_loop, multithread_loop, multiprocess_loop, hmain]
  exact ⟨hval, by rw [hval, List.length_map]⟩

/-- Witness for C1 at a concrete input: four tasks squaring their argument,
finished in the out-of-order completion order `[2, 0, 3, 1]`. -/
theorem concurrent_loop_ordered_witness :
    ([2, 0, 3, 1] : List Nat).Perm
        (List.range ([[1], [2], [3], [4]] : List (List Nat)).length)
    ∧ (concurrent_loop true (fun l : List Nat => l.headD 0 * l.headD 0)
          [[1], [2], [3], [4]] [] [] [2, 0, 3, 1]
        = ([[1], [2], [3], [4]] : List (List Nat)).map
            (fun t => (fun l : List Nat => l.headD 0 * l.headD 0) (t ++ [] ++ []))
      ∧ (concurrent_loop true (fun l : List Nat => l.headD 0 * l.headD 0)
            [[1], [2], [3], [4]] [] [] [2, 0, 3, 1]).length
          = ([[1], [2], [3], [4]] : List (List Nat)).length) :=
  ⟨by decide,
    concurrent_loop_ordered true (fun l : List Nat => l.headD 0 * l.headD 0)
      [[1], [2], [3], [4]] [] [] [2, 0, 3, 1] (by decide)⟩

/-- C7: the tagger yields exactly one task unit per input argument list, in
input order, each unit being `(work_function, order_index, *per-task args,
*shared args, *isolated args)` with `order_index` the zero-based position of
the argument list in the input sequence; shared ("static") broadcasts are
appended before isolated ("deepcopy static") broadcasts. -/
theorem generate_process_args_spec (f : List α → β) (tasks : List (List α))
    (shared iso : List α) :
    (generate_process_args f tasks shared iso).length = tasks.length
    ∧ ∀ i t, tasks[i]? = some t →
        (generate_process_args f tasks shared iso)[i]?
          = some (TaskUnit.mk f i (t ++ shared ++ iso)) := by
  refine ⟨generate_process_args_length f tasks shared iso, ?_⟩
  intro i t ht
  rw [generate_process_args_getElem?, ht]
  rfl

/-- Witness for C7 at a concrete input: two tasks, one shared and one isolated
broadcast. -/
theorem generate_process_args_spec_witness :
    ([[1], [2]] : List (List Nat))[0]? = some [1]
    ∧ (generate_process_args (fun l : List Nat => l.headD 0) [[1], [2]] [10] [20])[0]?
        = some (TaskUnit.mk (fun l : List Nat => l.headD 0) 0 ([1] ++ [10] ++ [20])) :=
  ⟨rfl,
    (generate_process_args_spec (fun l : List Nat => l.headD 0) [[1], [2]] [10] [20]).2
      0 [1] rfl⟩

/-- C9: the raw result-dispatch path, given any list of pre-computed
`(order_index, result)` pairs with distinct order indices (expressed as: the
list is a permutation of a strictly key-sorted list `s`), returns exactly the
result values sorted ascending by order index, its output length equals the
number of supplied pairs, and the returned value is the same for both settings
of the mode flag, which (with the declared task count and the work function)
affects only progress reporting. -/
theorem get_multiprocess_results_with_tqdm_spec {β σ : Type} (process_func : σ)
    (process_args_len : Nat) (threads : Bool) (c s : List (Nat × β))
    (hp : c.Perm s) (hs : s.Pairwise orderLT) :
    get_multiprocess_results_with_tqdm c process_func process_args_len threads
      = s.map Prod.snd
    ∧ (get_multiprocess_results_with_tqdm c process_func process_args_len threads).length
        = c.length
    ∧ get_multiprocess_results_with_tqdm c process_func process_args_len true
        = get_multiprocess_results_with_tqdm c process_func process_args_len false := by
  unfold get_multiprocess_results_with_tqdm
  rw [insertionSort_orderLE_eq c s hp hs]
  exact ⟨rfl, by rw [List.length_map, hp.length_eq], rfl⟩

/-- Witness for C9 at a concrete input: the out-of-order pairs
`[(1, 100), (0, 50), (2, 150)]` from the repository's own test. -/
theorem get_multiprocess_results_with_tqdm_spec_witness :
    ([(1, 100), (0, 50), (2, 150)] : List (Nat × Nat)).Perm [(0, 50), (1, 100), (2, 150)]
    ∧ ([(0, 50), (1, 100), (2, 150)] : List (Nat × Nat)).Pairwise orderLT
    ∧ (get_multiprocess_results_with_tqdm
          ([(1, 100), (0, 50), (2, 150)] : List (Nat × Nat)) (0 : Nat) 3 true
        = ([(0, 50), (1, 100), (2, 150)] : List (Nat × Nat)).map Prod.snd
      ∧ (get_multiprocess_results_with_tqdm
            ([(1, 100), (0, 50), (2, 150)] : List (Nat × Nat)) (0 : Nat) 3 true).length
          = ([(1, 100), (0, 50), (2, 150)] : List (Nat × Nat)).length
      ∧ get_multiprocess_results_with_tqdm
            ([(1, 100), (0, 50), (2, 150)] : List (Nat × Nat)) (0 : Nat) 3 true
          = get_multiprocess_results_with_tqdm
              ([(1, 100), (0, 50), (2, 150)] : List (Nat × Nat)) (0 : Nat) 3 false) :=
  ⟨by decide, by decide,
    get_multiprocess_results_with_tqdm_spec (0 : Nat) 3 true
      [(1, 100), (0, 50), (2, 150)] [(0, 50), (1, 100), (2, 150)]
      (by decide) (by decide)⟩

/-- An error produced by the fail-fast collection comes from one of the
supplied result pairs. -/
theorem collect_fail_fast_error_mem {ε γ : Type} {l : List (Nat × Except ε γ)} {e : ε}
    (h : collect_fail_fast l = Except.error e) :
    ∃ p ∈ l, p.2 = Except.error e := by
  induction l with
  | nil => simp [collect_fail_fast] at h
  | cons hd tl ih =>
    obtain ⟨i, r⟩ := hd
    cases r with
    | error e' =>
      have he : e' = e := by
        simpa [collect_fail_fast] using h
      exact ⟨(i, Except.error e'), List.mem_cons_self _ _, by rw [he]⟩
    | ok v =>
      rw [collect_fail_fast] at h
      cases hc : collect_fail_fast tl with
      | ok pairs =>
        rw [hc] at h
        simp [Except.map] at h
      | error e'' =>
        rw [hc] at h
        simp [Except.map] at h
        obtain ⟨p, hp, hpe⟩ := ih (h ▸ hc)
        exact ⟨p, List.mem_cons_of_mem _ hp, hpe⟩

/-- If any supplied result pair carries an error, the fail-fast collection
fails. -/
theorem collect_fail_fast_error_of_mem {ε γ : Type} {l : List (Nat × Except ε γ)}
    {p : Nat × Except ε γ} (hp : p ∈ l) {e : ε} (he : p.2 = Except.error e) :
    ∃ e', collect_fail_fast l = Except.error e' := by
  induction l with
  | nil => cases hp
  | cons hd tl ih =>
    obtain ⟨i, r⟩ := hd
    cases r with
    | error e' => exact ⟨e', by rw [collect_fail_fast]⟩
    | ok v =>
      rcases List.mem_cons.1 hp with hph | hptl
      · rw [hph] at he
        simp at he
      · obtain ⟨e', he'⟩ := ih hptl
        refine ⟨e', ?_⟩
        rw [collect_fail_fast, he']
        rfl

/-- Membership in the engine's completed pairs corresponds to a task of the
input list. -/
theorem run_engine_mem_iff {α β : Type} (f : List α → β) (tasks : List (List α))
    (shared iso : List α) (completion : List Nat)
    (hc : completion.Perm (List.range tasks.length)) (p : Nat × β) :
    p ∈ run_engine f tasks shared iso completion ↔
      ∃ i t, tasks[i]? = some t ∧ p = (i, f (t ++ shared ++ iso)) := by
  rw [(run_engine_perm f tasks shared iso completion hc).mem_iff]
  constructor
  · intro hmem
    obtain ⟨q, hq, hqe⟩ := List.mem_map.1 hmem
    exact ⟨q.1, q.2, List.mem_enum_iff_getElem?.1 hq, hqe.symm⟩
  · rintro ⟨i, t, ht, rfl⟩
    exact List.mem_map.2 ⟨(i, t), List.mem_enum_iff_getElem?.2 ht, rfl⟩

/-- C8: if the work function fails for any one task, the entire loop call
fails — no partial result sequence is returned to the caller — and every
failure surfaces to the direct caller: an error outcome of the loop is the
error raised by the work function on one of the tasks (nothing is swallowed,
aggregated or retried). -/
theorem concurrent_loop_fallible_fail_fast {α β ε : Type} (threading : Bool)
    (f : List α → Except ε β) (tasks : List (List α)) (shared iso : List α)
    (completion : List Nat) (hc : completion.Perm (List.range tasks.length)) :
    ((∃ t ∈ tasks, ∃ e, f (t ++ shared ++ iso) = Except.error e) →
        ∃ e, concurrent_loop_fallible threading f tasks shared iso completion
          = Except.error e)
    ∧ ∀ e, concurrent_loop_fallible threading f tasks shared iso completion
          = Except.error e →
        ∃ t ∈ tasks, f (t ++ shared ++ iso) = Except.error e := by
  constructor
  · rintro ⟨t, hmem, e, he⟩
    obtain ⟨i, hi⟩ := List.mem_iff_getElem?.1 hmem
    have hpmem : ((i, f (t ++ shared ++ iso)) : Nat × Except ε β)
        ∈ run_engine f tasks shared iso completion :=
      (run_engine_mem_iff f tasks shared iso completion hc _).2 ⟨i, t, hi, rfl⟩
    obtain ⟨e', he'⟩ := collect_fail_fast_error_of_mem hpmem he
    refine ⟨e', ?_⟩
    rw [concurrent_loop_fallible, he']
  · intro e hloop
    rw [concurrent_loop_fallible] at hloop
    cases hcoll : collect_fail_fast (run_engine f tasks shared iso completion) with
    | ok pairs =>
      rw [hcoll] at hloop
      simp at hloop
    | error e'' =>
      rw [hcoll] at hloop
      have he : e'' = e := by simpa using hloop
      obtain ⟨p, hp, hpe⟩ := collect_fail_fast_error_mem (he ▸ hcoll)
      obtain ⟨i, t, ht, rfl⟩ :=
        (run_engine_mem_iff f tasks shared iso completion hc p).1 hp
      exact ⟨t, List.getElem?_mem ht, hpe⟩

/-- Witness for C8 at a concrete input: the second of two tasks fails, under
the out-of-order completion order `[1, 0]`. -/
theorem concurrent_loop_fallible_fail_fast_witness :
    ([1, 0] : List Nat).Perm (List.range ([[1], [2]] : List (List Nat)).length)
    ∧ (((∃ t ∈ ([[1], [2]] : List (List Nat)), ∃ e,
          (fun l : List Nat => if l.headD 0 = 2 then Except.error 0 else Except.ok (l.headD 0))
              (t ++ [] ++ []) = Except.error e) →
        ∃ e, concurrent_loop_fallible true
            (fun l : List Nat => if l.headD 0 = 2 then Except.error 0 else Except.ok (l.headD 0))
            [[1], [2]] [] [] [1, 0] = Except.error e)
      ∧ ∀ e, concurrent_loop_fallible true
            (fun l : List Nat => if l.headD 0 = 2 then Except.error 0 else Except.ok (l.headD 0))
            [[1], [2]] [] [] [1, 0] = Except.error e →
          ∃ t ∈ ([[1], [2]] : List (List Nat)),
            (fun l : List Nat => if l.headD 0 = 2 then Except.error 0 else Except.ok (l.headD 0))
                (t ++ [] ++ []) = Except.error e) :=
  ⟨by decide,
    concurrent_loop_fallible_fail_fast true
      (fun l : List Nat => if l.headD 0 = 2 then Except.error 0 else Except.ok (l.headD 0))
      [[1], [2]] [] [] [1, 0] (by decide)⟩

/-- C3 counterexample: with a known task count of 0 — which is smaller than
the CPU-derived bound — the pool sizing function still returns 1, because the
spec's unconditional "must always return at least 1" overrides the task-count
cap; so the claim's cap clause fails as stated for task count 0. -/
theorem find_max_pools_zero_task_count :
    0 < cpu_derived_bound false (some 4)
    ∧ ¬ find_max_pools false (some 4) (some 0) ≤ 0 := by
  decide

/-- C3 (amended): for every mode and every optional task count the pool sizing
function returns at least 1 (even when the CPU count cannot be determined); in
process mode with a determined CPU count of at least one core it never exceeds
the CPU core count; and it never exceeds the task count whenever the task
count is known, positive, and smaller than the CPU-derived bound. -/
theorem find_max_pools_spec (threads : Bool) (cpu_count : Option Nat)
    (process_args_len : Option Nat) :
    1 ≤ find_max_pools threads cpu_count process_args_len
    ∧ (∀ c, cpu_count = some c → 1 ≤ c →
        find_max_pools false cpu_count process_args_len ≤ c)
    ∧ (∀ n, process_args_len = some n → 1 ≤ n →
        n < cpu_derived_bound threads cpu_count →
        find_max_pools threads cpu_count process_args_len ≤ n) := by
  refine ⟨Nat.le_max_right _ 1, ?_, ?_⟩
  · rintro c rfl hc
    cases process_args_len with
    | none => simp [find_max_pools, cpu_derived_bound]; omega
    | some n => simp [find_max_pools, cpu_derived_bound]; omega
  · rintro n rfl hn hbound
    cases threads <;> simp [find_max_pools, cpu_derived_bound] at * <;> omega

/-- Witness for C3's amended theorem at concrete inputs: process mode, 4 CPU
cores, 2 tasks. -/
theorem find_max_pools_spec_witness :
    find_max_pools false (some 4) (some 2) ≤ 4
    ∧ find_max_pools false (some 4) (some 2) ≤ 2 :=
  ⟨(find_max_pools_spec false (some 4) (some 2)).2.1 4 rfl (by decide),
    (find_max_pools_spec false (some 4) (some 2)).2.2 2 rfl (by decide) (by decide)⟩

/-- C4: invoking the timeout wrapper with duration zero raises the timeout
error — with the supplied message — and never returns a value, for every
callable, every argument list and every (non-negative) running time of the
call, including an instantly returning one. -/
theorem cancel_on_timeout_zero {μ α β : Type} (message : μ) (call : List α → β)
    (runtime : ℚ) (args : List α) (hr : 0 ≤ runtime) :
    cancel_on_timeout 0 message call runtime args = Except.error ⟨message⟩ := by
  unfold cancel_on_timeout
  rw [if_neg (not_lt.mpr hr)]

/-- Witness for C4 at a concrete input: an instantly returning call
(running time 0). -/
theorem cancel_on_timeout_zero_witness :
    (0 : ℚ) ≤ 0
    ∧ cancel_on_timeout 0 (0 : Nat) (fun _ : List Nat => (7 : Nat)) 0 []
        = Except.error ⟨0⟩ :=
  ⟨le_refl 0, cancel_on_timeout_zero 0 (fun _ : List Nat => (7 : Nat)) 0 [] (le_refl 0)⟩

/-- C5: when the wrapped call finishes strictly before the given duration
elapses, the timeout wrapper returns exactly the underlying call's return
value, unmodified. -/
theorem cancel_on_timeout_fast {μ α β : Type} (seconds : ℚ) (message : μ)
    (call : List α → β) (runtime : ℚ) (args : List α) (h : runtime < seconds) :
    cancel_on_timeout seconds message call runtime args = Except.ok (call args) := by
  unfold cancel_on_timeout
  rw [if_pos h]

/-- Witness for C5 at a concrete input: a call finishing in 1/100 of a time
unit under a duration of 1. -/
theorem cancel_on_timeout_fast_witness :
    (1 : ℚ) / 100 < 1
    ∧ cancel_on_timeout 1 (0 : Nat) (fun l : List Nat => l.headD 0 + 15) (1 / 100) [5]
        = Except.ok ((fun l : List Nat => l.headD 0 + 15) [5]) :=
  ⟨by norm_num,
    cancel_on_timeout_fast 1 (0 : Nat) (fun l : List Nat => l.headD 0 + 15) (1 / 100) [5]
      (by norm_num)⟩

/-- C6: when the duration elapses before the wrapped call finishes, the
wrapper fails with the timeout error carrying the caller-supplied message. -/
theorem cancel_on_timeout_expired {μ α β : Type} (seconds : ℚ) (message : μ)
    (call : List α → β) (runtime : ℚ) (args : List α) (h : seconds < runtime) :
    cancel_on_timeout seconds message call runtime args = Except.error ⟨message⟩ := by
  unfold cancel_on_timeout
  rw [if_neg (not_lt.mpr (le_of_lt h))]

/-- Witness for C6 at a concrete input: a call needing 2 time units under a
duration of 1/2. -/
theorem cancel_on_timeout_expired_witness :
    (1 : ℚ) / 2 < 2
    ∧ cancel_on_timeout (1 / 2) (3 : Nat) (fun _ : List Nat => (0 : Nat)) 2 []
        = Except.error ⟨3⟩ :=
  ⟨by norm_num,
    cancel_on_timeout_expired (1 / 2) (3 : Nat) (fun _ : List Nat => (0 : Nat)) 2 []
      (by norm_num)⟩

/-- C10: the length helper returns `len(x)` for any sized collection
regardless of any default supplied, returns the supplied default for an
iterable with no length (such as a generator), and raises `TypeError` when the
iterable has no length and no default is given. -/
theorem get_len_with_default_spec (α : Type) :
    (∀ (l : List α) (d : Option Nat),
        get_len_with_default (PyIterable.sized l) d = Except.ok l.length)
    ∧ (∀ (l : List α) (n : Nat),
        get_len_with_default (PyIterable.unsized l) (some n) = Except.ok n)
    ∧ (∀ l : List α,
        get_len_with_default (PyIterable.unsized l) none = Except.error PyTypeError.mk) :=
  ⟨fun _ _ => rfl, fun _ _ => rfl, fun _ => rfl⟩

/-- Closed form of one round of isolated-broadcast copying: the values at the
listed addresses are appended to the heap, and the copies live at the next
consecutive fresh addresses. -/
theorem copy_iso_args_spec {α : Type} [Inhabited α] (h : Heap α) (as : List Nat)
    (hvalid : ∀ a ∈ as, a < h.size) :
    (copy_iso_args h as).1.cells = h.cells ++ as.map h.getD
    ∧ (copy_iso_args h as).2 = List.range' h.size as.length := by
  induction as generalizing h with
  | nil => simp [copy_iso_args]
  | cons a rest ih =>
    have hva : a < h.cells.length := hvalid a (List.mem_cons_self a rest)
    have h1cells : (h.deepcopy a).1.cells = h.cells ++ [h.getD a] := rfl
    have h1addr : (h.deepcopy a).2 = h.size := rfl
    have h1size : (h.deepcopy a).1.size = h.size + 1 := by
      simp [Heap.size, h1cells]
    have hrest : ∀ b ∈ rest, b < (h.deepcopy a).1.size := by
      intro b hb
      have := hvalid b (List.mem_cons_of_mem a hb)
      omega
    have hmap : rest.map (h.deepcopy a).1.getD = rest.map h.getD := by
      apply List.map_congr_left
      intro b hb
      have hb' : b < h.cells.length := hvalid b (List.mem_cons_of_mem a hb)
      simp [Heap.getD, h1cells, List.getElem?_append_left hb']
    have ihh := ih (h.deepcopy a).1 hrest
    constructor
    · show (copy_iso_args (h.deepcopy a).1 rest).1.cells = _
      rw [ihh.1, hmap, h1cells, List.append_assoc]
      rfl
    · show (h.deepcopy a).2 :: (copy_iso_args (h.deepcopy a).1 rest).2 = _
      rw [ihh.2, h1addr, h1size, List.length_cons, List.range'_succ]

/-- Closed form of the identity-aware tagging of `n` units: the heap is
extended by `n` rounds of copies of the isolated-broadcast values, and unit
`i`'s copies live at the consecutive addresses starting at
`h.size + i * as.length`. -/
theorem tag_units_iso_spec {α : Type} [Inhabited α] (h : Heap α) (n : Nat) (as : List Nat)
    (hvalid : ∀ a ∈ as, a < h.size) :
    (tag_units_iso h n as).1.cells
        = h.cells ++ (List.replicate n (as.map h.getD)).flatten
    ∧ (tag_units_iso h n as).2
        = (List.range n).map (fun i => List.range' (h.size + i * as.length) as.length) := by
  induction n generalizing h with
  | zero => simp [tag_units_iso]
  | succ m ih =>
    have hcopy := copy_iso_args_spec h as hvalid
    have h1size : (copy_iso_args h as).1.size = h.size + as.length := by
      simp [Heap.size, hcopy.1]
    have hvalid1 : ∀ a ∈ as, a < (copy_iso_args h as).1.size := by
      intro a ha
      have := hvalid a ha
      omega
    have hmap1 : as.map (copy_iso_args h as).1.getD = as.map h.getD := by
      apply List.map_congr_left
      intro b hb
      have hb' : b < h.cells.length := hvalid b hb
      simp [Heap.getD, hcopy.1, List.getElem?_append_left hb']
    have ihh := ih (copy_iso_args h as).1 hvalid1
    constructor
    · show (tag_units_iso (copy_iso_args h as).1 m as).1.cells = _
      rw [ihh.1, hmap1, hcopy.1, List.append_assoc, List.replicate_succ,
        List.flatten_cons]
    · show (copy_iso_args h as).2 :: (tag_units_iso (copy_iso_args h as).1 m as).2 = _
      rw [ihh.2, hcopy.2, h1size, List.range_succ_eq_map, List.map_cons, List.map_map]
      congr 1
      · rw [Nat.zero_mul, Nat.add_zero]
      · apply List.map_congr_left
        intro i _
        show List.range' (h.size + as.length + i * as.length) as.length
            = List.range' (h.size + (i + 1) * as.length) as.length
        rw [Nat.succ_mul, Nat.add_assoc, Nat.add_comm as.length (i * as.length)]

/-- Indexing into the flattening of `n` copies of a block reads the block. -/
theorem getD_flatten_replicate {γ : Type} (d : γ) (n i k : Nat) (M : List γ)
    (hi : i < n) (hk : k < M.length) :
    ((List.replicate n M).flatten).getD (i * M.length + k) d = M.getD k d := by
  induction i generalizing n with
  | zero =>
    cases n with
    | zero => omega
    | succ m =>
      rw [List.replicate_succ, List.flatten_cons, Nat.zero_mul, Nat.zero_add]
      simp [List.getElem?_append_left hk]
  | succ j ih =>
    cases n with
    | zero => omega
    | succ m =>
      have hmul : (j + 1) * M.length = j * M.length + M.length := Nat.succ_mul j M.length
      have hlen : M.length ≤ (j + 1) * M.length + k := by omega
      have harith : (j + 1) * M.length + k - M.length = j * M.length + k := by omega
      rw [List.replicate_succ, List.flatten_cons, List.getD_eq_getElem?_getD,
        List.getElem?_append_right hlen, harith, ← List.getD_eq_getElem?_getD]
      exact ih m (by omega)

/-- Positions `i * K + k` with `k < K` determine `i` and `k` uniquely. -/
theorem mul_add_lt_inj {K i j k l : Nat} (hk : k < K) (hl : l < K)
    (he : i * K + k = j * K + l) : i = j ∧ k = l := by
  have hK : 0 < K := Nat.lt_of_le_of_lt (Nat.zero_le k) hk
  have h1 : (i * K + k) % K = k := by
    rw [Nat.mul_comm i K, Nat.mul_add_mod, Nat.mod_eq_of_lt hk]
  have h2 : (j * K + l) % K = l := by
    rw [Nat.mul_comm j K, Nat.mul_add_mod, Nat.mod_eq_of_lt hl]
  have hkl : k = l := by rw [← h1, he, h2]
  subst hkl
  have hij : i * K = j * K := by omega
  exact ⟨Nat.eq_of_mul_eq_mul_right hK hij, rfl⟩

/-- The address of unit `i`'s copy of the `k`-th isolated broadcast argument,
computed explicitly. -/
theorem tag_addr_eq {α : Type} [Inhabited α] (h : Heap α) (n : Nat) (as : List Nat)
    (hvalid : ∀ a ∈ as, a < h.size) (i k : Nat) (hi : i < n) (hk : k < as.length) :
    tag_addr h n as i k = h.size + i * as.length + k := by
  unfold tag_addr
  rw [(tag_units_iso_spec h n as hvalid).2]
  have houter :
      (List.map (fun i => List.range' (h.size + i * as.length) as.length)
          (List.range n)).getD i []
        = List.range' (h.size + i * as.length) as.length := by
    rw [List.getD_eq_getElem?_getD, List.getElem?_map, List.getElem?_range hi]
    rfl
  rw [houter]
  have hk' : k < (List.range' (h.size + i * as.length) as.length).length := by
    simpa using hk
  rw [List.getD_eq_getElem?_getD, List.getElem?_eq_getElem hk', List.getElem_range']
  simp [Nat.add_assoc]

/-- The copy at unit `i`, position `k`, holds exactly the value the caller's
original object held. -/
theorem tag_heap_getD_copy {α : Type} [Inhabited α] (h : Heap α) (n : Nat) (as : List Nat)
    (hvalid : ∀ a ∈ as, a < h.size) (i k : Nat) (hi : i < n) (hk : k < as.length) :
    (tag_heap h n as).getD (tag_addr h n as i k) = h.getD (as.getD k 0) := by
  rw [tag_addr_eq h n as hvalid i k hi hk]
  unfold tag_heap Heap.getD
  rw [(tag_units_iso_spec h n as hvalid).1]
  have hsz : h.size = h.cells.length := rfl
  have hge : h.cells.length ≤ h.size + i * as.length + k := by
    rw [← hsz]; omega
  have hsub : h.size + i * as.length + k - h.cells.length = i * as.length + k := by
    rw [← hsz]; omega
  rw [List.getD_eq_getElem?_getD, List.getElem?_append_right hge, hsub,
    ← List.getD_eq_getElem?_getD]
  have hkM : k < (List.map h.getD as).length := by simpa using hk
  have hstep :
      ((List.replicate n (List.map h.getD as)).flatten).getD (i * as.length + k) default
        = (List.map h.getD as).getD k default := by
    have hgen := getD_flatten_replicate default n i k (List.map h.getD as) hi hkM
    simpa using hgen
  rw [hstep]
  have hval : as.getD k 0 = as.get ⟨k, hk⟩ := by
    simp [List.getD_eq_getElem?_getD, List.getElem?_eq_getElem hk]
  rw [hval]
  simp [Heap.getD, List.getD_eq_getElem?_getD, List.getElem?_eq_getElem hkM]

/-- Tagging only allocates: the value of every pre-existing object, in
particular of each caller-supplied original, is unchanged. -/
theorem tag_heap_getD_orig {α : Type} [Inhabited α] (h : Heap α) (n : Nat) (as : List Nat)
    (hvalid : ∀ a ∈ as, a < h.size) (b : Nat) (hb : b < h.size) :
    (tag_heap h n as).getD b = h.getD b := by
  unfold tag_heap Heap.getD
  rw [(tag_units_iso_spec h n as hvalid).1]
  rw [List.getD_eq_getElem?_getD, List.getElem?_append_left hb,
    ← List.getD_eq_getElem?_getD]

/-- C2: for every isolated (deepcopy) broadcast argument, each task unit
produced by the loop's tagger receives a fresh deep copy that is equal in
value to the caller's original but is a distinct object from the original and
from every other task unit's copy; consequently a mutation performed through
one unit's copy is never observed through any other unit's copy.  Stated over
the identity-aware heap embedding: `n` units, isolated broadcast originals at
addresses `as`, positions `(i, k)` and `(j, l)` ranging over distinct
unit/argument pairs. -/
theorem deepcopy_static_args_isolated {α : Type} [Inhabited α] (h : Heap α) (n : Nat)
    (as : List Nat) (hvalid : ∀ a ∈ as, a < h.size) (i j k l : Nat)
    (hi : i < n) (hj : j < n) (hk : k < as.length) (hl : l < as.length)
    (hne : ¬ (i = j ∧ k = l)) :
    (tag_heap h n as).getD (tag_addr h n as i k) = h.getD (as.getD k 0)
    ∧ (tag_heap h n as).getD (as.getD k 0) = h.getD (as.getD k 0)
    ∧ tag_addr h n as i k ≠ as.getD k 0
    ∧ tag_addr h n as i k ≠ tag_addr h n as j l
    ∧ ∀ v, ((tag_heap h n as).set (tag_addr h n as i k) v).getD (tag_addr h n as j l)
        = (tag_heap h n as).getD (tag_addr h n as j l) := by
  have hsome : as[k]? = some (as.get ⟨k, hk⟩) := List.getElem?_eq_getElem hk
  have hgetd : as.getD k 0 = as.get ⟨k, hk⟩ := by
    simp [List.getD_eq_getElem?_getD, hsome]
  have hmem : as.getD k 0 ∈ as := by
    rw [hgetd]
    exact List.getElem?_mem hsome
  have horig : as.getD k 0 < h.size := hvalid _ hmem
  have haddrik := tag_addr_eq h n as hvalid i k hi hk
  have haddrjl := tag_addr_eq h n as hvalid j l hj hl
  have hne_addr : tag_addr h n as i k ≠ tag_addr h n as j l := by
    rw [haddrik, haddrjl]
    intro heq
    have heq' : i * as.length + k = j * as.length + l := by omega
    exact hne (mul_add_lt_inj hk hl heq')
  refine ⟨tag_heap_getD_copy h n as hvalid i k hi hk,
    tag_heap_getD_orig h n as hvalid _ horig, by omega, hne_addr, ?_⟩
  intro v
  show ((tag_heap h n as).set (tag_addr h n as i k) v).cells.getD
      (tag_addr h n as j l) default = _
  simp [Heap.set, Heap.getD, List.getElem?_set_ne hne_addr]

/-- Witness for C2 at a concrete input: a heap holding two objects with values
10 and 20, both used as isolated broadcasts across two task units; compared
are unit 0's copy of the first argument and unit 1's copy of the second. -/
theorem deepcopy_static_args_isolated_witness :
    (∀ a ∈ ([0, 1] : List Nat), a < (Heap.mk ([10, 20] : List Nat)).size)
    ∧ (0 : Nat) < 2 ∧ (1 : Nat) < 2
    ∧ (0 : Nat) < ([0, 1] : List Nat).length ∧ (1 : Nat) < ([0, 1] : List Nat).length
    ∧ ¬ ((0 : Nat) = 1 ∧ (0 : Nat) = 1)
    ∧ ((tag_heap (Heap.mk ([10, 20] : List Nat)) 2 [0, 1]).getD
          (tag_addr (Heap.mk ([10, 20] : List Nat)) 2 [0, 1] 0 0)
        = (Heap.mk ([10, 20] : List Nat)).getD (([0, 1] : List Nat).getD 0 0)
      ∧ (tag_heap (Heap.mk ([10, 20] : List Nat)) 2 [0, 1]).getD
            (([0, 1] : List Nat).getD 0 0)
          = (Heap.mk ([10, 20] : List Nat)).getD (([0, 1] : List Nat).getD 0 0)
      ∧ tag_addr (Heap.mk ([10, 20] : List Nat)) 2 [0, 1] 0 0
          ≠ ([0, 1] : List Nat).getD 0 0
      ∧ tag_addr (Heap.mk ([10, 20] : List Nat)) 2 [0, 1] 0 0
          ≠ tag_addr (Heap.mk ([10, 20] : List Nat)) 2 [0, 1] 1 1
      ∧ ∀ v, ((tag_heap (Heap.mk ([10, 20] : List Nat)) 2 [0, 1]).set
            (tag_addr (Heap.mk ([10, 20] : List Nat)) 2 [0, 1] 0 0) v).getD
            (tag_addr (Heap.mk ([10, 20] : List Nat)) 2 [0, 1] 1 1)
          = (tag_heap (Heap.mk ([10, 20] : List Nat)) 2 [0, 1]).getD
              (tag_addr (Heap.mk ([10, 20] : List Nat)) 2 [0, 1] 1 1)) :=
  ⟨by decide, by decide, by decide, by decide, by decide, by decide,
    deepcopy_static_args_isolated (Heap.mk ([10, 20] : List Nat)) 2 [0, 1]
      (by decide) 0 1 0 1 (by decide) (by decide) (by decide) (by decide) (by decide)⟩
